import Mathlib

/-!
Shallow embedding of the Solar-Sym N-body simulation core
(`src/src/__main__.py`): the `Body` record with its pairwise Newtonian
force law, and the `System` record with its forward-Euler `step`.

Numbers are modelled as exact reals.  numpy's dynamic scalar/array
distinction matters in one place — Python's `sum` over an empty
generator returns the integer `0`, not a 2-element array — so the value
returned by `Body.force` is modelled by the type `NVal`, which is
either a scalar or a 2-vector, with numpy's broadcasting rules for the
arithmetic that the source applies to it.
-/

namespace SolarSym

noncomputable section

/-- `scipy.constants.G` (CODATA: 6.6743e-11). -/
def G : ℝ := 6.6743e-11

/-- The fixed time step of the source: `TIME_STEP = 60`. -/
def TIME_STEP : ℝ := 60

/-- One body, as in `Body.__init__`: name, colour, 2-D position and
velocity, radius and mass.  `x_new` and `v_new` model the dynamic
scratch attributes that `System.step` assigns onto each live body
during its compute phase: they do not exist after construction
(`none`) and persist after a step (`some _`). -/
structure Body where
  name : String
  colour : String
  x : ℝ × ℝ
  v : ℝ × ℝ
  r : ℝ
  m : ℝ
  x_new : Option (ℝ × ℝ)
  v_new : Option (ℝ × ℝ)

instance : Inhabited Body := ⟨⟨"", "", (0, 0), (0, 0), 0, 0, none, none⟩⟩

/-- `Body.__init__`: stores every field as given (positions and
velocities are converted to arrays; no validation of any kind; the
scratch attributes do not exist yet). -/
def Body.init (name colour : String) (x v : ℝ × ℝ) (r m : ℝ) : Body :=
  ⟨name, colour, x, v, r, m, none, none⟩

/-- A numpy-style dynamic value: either a Python scalar or a 2-D array. -/
inductive NVal where
  | scalar (c : ℝ)
  | vec (a : ℝ × ℝ)

/-- Broadcasting addition `+` of two dynamic values. -/
def NVal.add : NVal → NVal → NVal
  | .scalar a, .scalar b => .scalar (a + b)
  | .scalar a, .vec b => .vec (a + b.1, a + b.2)
  | .vec a, .scalar b => .vec (a.1 + b, a.2 + b)
  | .vec a, .vec b => .vec (a.1 + b.1, a.2 + b.2)

/-- Broadcasting multiplication of a dynamic value by a scalar on the left. -/
def NVal.smul (c : ℝ) : NVal → NVal
  | .scalar a => .scalar (c * a)
  | .vec a => .vec (c * a.1, c * a.2)

/-- Broadcasting division of a dynamic value by a scalar. -/
def NVal.divr : NVal → ℝ → NVal
  | .scalar a, c => .scalar (a / c)
  | .vec a, c => .vec (a.1 / c, a.2 / c)

/-- Elementwise negation of a dynamic value. -/
def NVal.neg : NVal → NVal
  | .scalar a => .scalar (-a)
  | .vec a => .vec (-a.1, -a.2)

/-- `array + dynamic value`: broadcasting addition whose left operand is
known to be a 2-D array, as in `body.v + TIME_STEP * force / body.m`. -/
def NVal.addVec (a : ℝ × ℝ) : NVal → ℝ × ℝ
  | .scalar c => (a.1 + c, a.2 + c)
  | .vec b => (a.1 + b.1, a.2 + b.2)

/-- `numpy.linalg.norm` of a 2-vector: the Euclidean norm. -/
noncomputable def norm2 (d : ℝ × ℝ) : ℝ := Real.sqrt (d.1 ^ 2 + d.2 ^ 2)

/-- One summand of `Body.force`:
`- G * self.m * other.m / norm(self.x - other.x)**3 * (self.x - other.x)`. -/
noncomputable def forceTerm (self other : Body) : ℝ × ℝ :=
  (-G * self.m * other.m
     / norm2 (self.x.1 - other.x.1, self.x.2 - other.x.2) ^ 3
     * (self.x.1 - other.x.1),
   -G * self.m * other.m
     / norm2 (self.x.1 - other.x.1, self.x.2 - other.x.2) ^ 3
     * (self.x.2 - other.x.2))

/-- `Body.force(*others)`: Python's `sum` of the pairwise force arrays,
folded left-to-right from the default start value `0` (a scalar). -/
noncomputable def Body.force (self : Body) (others : List Body) : NVal :=
  (others.map fun o => NVal.vec (forceTerm self o)).foldl NVal.add (.scalar 0)

/-- The simulation state: elapsed time `t` and the bodies of the
`name -> Body` dict, in dict iteration order. -/
structure System where
  t : ℝ
  bodies : List Body

/-- One step of building the `{body.name: body for body in bodies}` dict:
a repeated key replaces the stored value in place (keeping its original
position), a fresh key is appended. -/
def dictInsert (acc : List Body) (b : Body) : List Body :=
  if acc.any fun a => a.name == b.name then
    acc.map fun a => if a.name == b.name then b else a
  else acc ++ [b]

/-- The value list of the dict `{body.name: body for body in bodies}`. -/
def mkBodies (bs : List Body) : List Body := bs.foldl dictInsert []

/-- `System.__init__(*bodies)`: `t = 0` and the name-keyed dict. -/
def System.init (bs : List Body) : System := ⟨0, mkBodies bs⟩

/-- The operand of `body.force` in `System.step`: every body of the dict
other than the one at position `i` (Python compares with `is`; distinct
dict slots are distinct iterations, so this is exclusion of position `i`). -/
def othersAt (l : List Body) (i : ℕ) : List Body := l.eraseIdx i

/-- The effect of `System.step` on the body at position `i`: the
compute phase writes the scratch attributes
`x_new = x + TIME_STEP * v` and
`v_new = v + TIME_STEP * force(others) / m` onto the body, both read
from the pre-step list `l`, and the commit phase then copies them into
`x` and `v`.  The scratch attributes persist on the body afterwards. -/
noncomputable def computeNew (l : List Body) (i : ℕ) : Body :=
  let b := l.getD i default
  let xn := (b.x.1 + TIME_STEP * b.v.1, b.x.2 + TIME_STEP * b.v.2)
  let vn := NVal.addVec b.v ((NVal.smul TIME_STEP (b.force (othersAt l i))).divr b.m)
  { b with x := xn, v := vn, x_new := some xn, v_new := some vn }

/-- `System.step`: two-phase forward Euler.  All `x_new`/`v_new` are
computed from the pre-step state, then committed, and `t` advances by
`TIME_STEP`. -/
noncomputable def System.step (s : System) : System :=
  ⟨s.t + TIME_STEP, (List.range s.bodies.length).map (computeNew s.bodies)⟩

/-- `n` repeated calls of `System.step`. -/
noncomputable def System.stepN (s : System) : ℕ → System
  | 0 => s
  | n + 1 => (s.stepN n).step

/-- The net force of the specification, as a plain 2-vector: the
componentwise sum of the pairwise force terms over `others`. -/
noncomputable def netForce (b : Body) (others : List Body) : ℝ × ℝ :=
  ((others.map fun o => (forceTerm b o).1).sum,
   (others.map fun o => (forceTerm b o).2).sum)

/-- The total momentum of a system: the sum over its bodies of `m * v`. -/
noncomputable def momentum (s : System) : ℝ × ℝ :=
  ((s.bodies.map fun b => b.m * b.v.1).sum,
   (s.bodies.map fun b => b.m * b.v.2).sum)

/-- Specification-side: the compute phase run in an arbitrary iteration
order `perm` over body positions, followed by the same commit.  Each
committed body takes the value that was computed for its own position;
`perm` is meant to enumerate every position exactly once. -/
noncomputable def System.stepPerm (s : System) (perm : List ℕ) : System :=
  ⟨s.t + TIME_STEP,
   (List.range s.bodies.length).map fun j =>
     (((perm.map fun i => (i, computeNew s.bodies i)).find? fun p => p.1 == j).map
       Prod.snd).getD (s.bodies.getD j default)⟩

/-- Specification-side: the naive in-place sequential update that the
two-phase design avoids — each body is committed as soon as it is
computed, so later bodies see already-advanced positions. -/
noncomputable def System.stepNaive (s : System) : System :=
  ⟨s.t + TIME_STEP,
   (List.range s.bodies.length).foldl (fun l i => l.set i (computeNew l i)) s.bodies⟩

/-- A unit-mass body at the origin moving along the x-axis. -/
def bodyA : Body := ⟨"A", "white", (0, 0), (1, 0), 1, 1, none, none⟩

/-- A unit-mass body at rest one metre along the x-axis. -/
def bodyB : Body := ⟨"B", "white", (1, 0), (0, 0), 1, 1, none, none⟩

/-- A concrete two-body system used to separate the two-phase update
from the naive sequential one. -/
def sysAB : System := ⟨0, [bodyA, bodyB]⟩

/-- A second body that reuses the name of `bodyA`, for exercising the
duplicate-name behaviour of the constructor. -/
def bodyA2 : Body := ⟨"A", "red", (5, 0), (0, 0), 2, 3, none, none⟩

/-- The heavy body of the spec's example scenario (`m1 = 1e30`). -/
def body1 : Body := ⟨"b1", "yellow", (0, 0), (0, 0), 1, 1e30, none, none⟩

/-- The light body of the spec's example scenario (`m2 = 1e24`),
placed `1e11` m along the x-axis. -/
def body2 : Body := ⟨"b2", "blue", (1e11, 0), (0, 0), 1, 1e24, none, none⟩

/-- The spec's example scenario as a constructed system. -/
noncomputable def sys12 : System := System.init [body1, body2]

lemma norm2_x (a : ℝ) : norm2 (a, 0) = |a| := by
  unfold norm2
  rw [show a ^ 2 + (0:ℝ) ^ 2 = a ^ 2 by ring, Real.sqrt_sq_eq_abs]

lemma norm2_sub_comm (p q : ℝ × ℝ) :
    norm2 (p.1 - q.1, p.2 - q.2) = norm2 (q.1 - p.1, q.2 - p.2) := by
  unfold norm2
  congr 1
  ring

lemma forceTerm_self (b : Body) : forceTerm b b = (0, 0) := by
  unfold forceTerm
  simp

lemma forceTerm_antisymm (a b : Body) :
    forceTerm a b = (-(forceTerm b a).1, -(forceTerm b a).2) := by
  unfold forceTerm
  rw [norm2_sub_comm]
  simp only [Prod.mk.injEq]
  constructor <;> ring

lemma foldl_add_vec (ts : List (ℝ × ℝ)) (acc : ℝ × ℝ) :
    (ts.map NVal.vec).foldl NVal.add (NVal.vec acc)
      = NVal.vec (acc.1 + (ts.map Prod.fst).sum, acc.2 + (ts.map Prod.snd).sum) := by
  induction ts generalizing acc with
  | nil => simp
  | cons t ts ih =>
      simp only [List.map_cons, List.foldl_cons, NVal.add, ih, List.sum_cons]
      congr 1
      simp only [Prod.mk.injEq]
      constructor <;> ring

lemma Body.force_nil (b : Body) : b.force [] = NVal.scalar 0 := rfl

lemma Body.force_cons (b o : Body) (os : List Body) :
    b.force (o :: os) = NVal.vec (netForce b (o :: os)) := by
  unfold Body.force netForce
  simp only [List.map_cons, List.foldl_cons, NVal.add]
  rw [show (fun o => NVal.vec (forceTerm b o)) = NVal.vec ∘ forceTerm b from rfl,
    ← List.map_map, foldl_add_vec]
  simp only [List.map_map, List.sum_cons]
  congr 1
  simp only [Prod.mk.injEq, Function.comp_def]
  constructor <;> ring

/-- The committed velocity of one body, in the claim's vector form:
`v + TIME_STEP * F / m` componentwise, where `F` is the claim's net
force.  Holds for an empty `others` list as well, where the Python
value is the broadcast scalar `0`. -/
lemma velUpdate (w : ℝ × ℝ) (m : ℝ) (b : Body) (others : List Body) :
    NVal.addVec w ((NVal.smul TIME_STEP (b.force others)).divr m)
      = (w.1 + TIME_STEP * (netForce b others).1 / m,
         w.2 + TIME_STEP * (netForce b others).2 / m) := by
  cases others with
  | nil =>
      simp [Body.force_nil, NVal.smul, NVal.divr, NVal.addVec, netForce]
  | cons o os =>
      rw [Body.force_cons]
      simp [NVal.smul, NVal.divr, NVal.addVec]

lemma computeNew_name (l : List Body) (i : ℕ) :
    (computeNew l i).name = (l.getD i default).name := rfl

lemma computeNew_colour (l : List Body) (i : ℕ) :
    (computeNew l i).colour = (l.getD i default).colour := rfl

lemma computeNew_r (l : List Body) (i : ℕ) :
    (computeNew l i).r = (l.getD i default).r := rfl

lemma computeNew_m (l : List Body) (i : ℕ) :
    (computeNew l i).m = (l.getD i default).m := rfl

lemma computeNew_x (l : List Body) (i : ℕ) :
    (computeNew l i).x
      = ((l.getD i default).x.1 + TIME_STEP * (l.getD i default).v.1,
         (l.getD i default).x.2 + TIME_STEP * (l.getD i default).v.2) := rfl

lemma computeNew_v (l : List Body) (i : ℕ) :
    (computeNew l i).v
      = ((l.getD i default).v.1
           + TIME_STEP * (netForce (l.getD i default) (othersAt l i)).1
             / (l.getD i default).m,
         (l.getD i default).v.2
           + TIME_STEP * (netForce (l.getD i default) (othersAt l i)).2
             / (l.getD i default).m) := by
  show NVal.addVec _ _ = _
  rw [velUpdate]

lemma getD_mem (l : List Body) (i : ℕ) (h : i < l.length) : l.getD i default ∈ l := by
  simp [List.getD, List.getElem?_eq_getElem h]

lemma range_map_sum (n : ℕ) (f : ℕ → ℝ) :
    ((List.range n).map f).sum = ∑ i in Finset.range n, f i := by
  induction n with
  | zero => simp
  | succ k ih =>
      rw [List.range_succ, Finset.sum_range_succ, List.map_append, List.sum_append, ih]
      simp

lemma sum_map_eq_sum_getD (l : List Body) (f : Body → ℝ) :
    (l.map f).sum = ∑ i in Finset.range l.length, f (l.getD i default) := by
  induction l with
  | nil => simp
  | cons a l ih =>
      rw [List.map_cons, List.sum_cons, List.length_cons, Finset.sum_range_succ']
      simp only [List.getD_cons_succ, List.getD_cons_zero]
      rw [← ih]
      ring

lemma sum_map_eraseIdx (f : Body → ℝ) (l : List Body) :
    ∀ i, i < l.length →
      ((l.eraseIdx i).map f).sum = (l.map f).sum - f (l.getD i default) := by
  induction l with
  | nil => intro i h; simp at h
  | cons a l ih =>
      intro i h
      cases i with
      | zero => simp
      | succ i =>
          have h' : i < l.length := by simpa using h
          simp only [List.eraseIdx_cons_succ, List.map_cons, List.sum_cons,
            List.getD_cons_succ, ih i h']
          ring

lemma double_sum_antisymm (n : ℕ) (t : ℕ → ℕ → ℝ) (h : ∀ i j, t i j = -t j i) :
    ∑ i in Finset.range n, ∑ j in Finset.range n, t i j = 0 := by
  have h2 : ∑ i in Finset.range n, ∑ j in Finset.range n, t i j
      = ∑ j in Finset.range n, ∑ i in Finset.range n, t i j := Finset.sum_comm
  have h3 : ∑ j in Finset.range n, ∑ i in Finset.range n, t i j
      = -∑ i in Finset.range n, ∑ j in Finset.range n, t i j := by
    rw [← Finset.sum_neg_distrib]
    refine Finset.sum_congr rfl fun j _ => ?_
    rw [← Finset.sum_neg_distrib]
    refine Finset.sum_congr rfl fun i _ => ?_
    exact h i j
  linarith [h2, h3]

lemma total_netForce_fst (l : List Body) :
    ∑ i in Finset.range l.length, (netForce (l.getD i default) (othersAt l i)).1 = 0 := by
  have key : ∀ i ∈ Finset.range l.length,
      (netForce (l.getD i default) (othersAt l i)).1
        = ∑ j in Finset.range l.length,
            (forceTerm (l.getD i default) (l.getD j default)).1 := by
    intro i hi
    have hi' : i < l.length := Finset.mem_range.1 hi
    show ((l.eraseIdx i).map fun o => (forceTerm (l.getD i default) o).1).sum = _
    rw [sum_map_eraseIdx _ l i hi',
      show (forceTerm (l.getD i default) (l.getD i default)).1 = 0 by
        rw [forceTerm_self],
      sub_zero, sum_map_eq_sum_getD]
  rw [Finset.sum_congr rfl key]
  exact double_sum_antisymm l.length _ fun i j => by
    rw [forceTerm_antisymm (l.getD i default) (l.getD j default)]

lemma total_netForce_snd (l : List Body) :
    ∑ i in Finset.range l.length, (netForce (l.getD i default) (othersAt l i)).2 = 0 := by
  have key : ∀ i ∈ Finset.range l.length,
      (netForce (l.getD i default) (othersAt l i)).2
        = ∑ j in Finset.range l.length,
            (forceTerm (l.getD i default) (l.getD j default)).2 := by
    intro i hi
    have hi' : i < l.length := Finset.mem_range.1 hi
    show ((l.eraseIdx i).map fun o => (forceTerm (l.getD i default) o).2).sum = _
    rw [sum_map_eraseIdx _ l i hi',
      show (forceTerm (l.getD i default) (l.getD i default)).2 = 0 by
        rw [forceTerm_self],
      sub_zero, sum_map_eq_sum_getD]
  rw [Finset.sum_congr rfl key]
  exact double_sum_antisymm l.length _ fun i j => by
    rw [forceTerm_antisymm (l.getD i default) (l.getD j default)]

lemma mass_cancel (m v d F : ℝ) (hm : m ≠ 0) : m * (v + d * F / m) = m * v + d * F := by
  field_simp
  ring

lemma computeNew_xnew (l : List Body) (i : ℕ) :
    (computeNew l i).x_new = some ((computeNew l i).x) := rfl

lemma computeNew_vnew (l : List Body) (i : ℕ) :
    (computeNew l i).v_new = some ((computeNew l i).v) := rfl

lemma step_t (s : System) : s.step.t = s.t + TIME_STEP := rfl

lemma step_bodies_length (s : System) : s.step.bodies.length = s.bodies.length := by
  simp [System.step]

lemma step_bodies_getD (s : System) (i : ℕ) (h : i < s.bodies.length) :
    s.step.bodies.getD i default = computeNew s.bodies i := by
  simp [System.step, List.getD, h]

lemma momentum_step_fst (s : System) (hm : ∀ b ∈ s.bodies, 0 < b.m) :
    (momentum s.step).1 = (momentum s).1 := by
  show ((s.step.bodies).map fun b => b.m * b.v.1).sum
      = ((s.bodies).map fun b => b.m * b.v.1).sum
  have hb : s.step.bodies = (List.range s.bodies.length).map (computeNew s.bodies) := rfl
  rw [hb, List.map_map, range_map_sum]
  have key : ∀ i ∈ Finset.range s.bodies.length,
      ((fun b => b.m * b.v.1) ∘ computeNew s.bodies) i
        = (s.bodies.getD i default).m * (s.bodies.getD i default).v.1
          + TIME_STEP * (netForce (s.bodies.getD i default) (othersAt s.bodies i)).1 := by
    intro i hi
    have hi' : i < s.bodies.length := Finset.mem_range.1 hi
    have hm0 : (s.bodies.getD i default).m ≠ 0 :=
      ne_of_gt (hm _ (getD_mem s.bodies i hi'))
    show (computeNew s.bodies i).m * (computeNew s.bodies i).v.1 = _
    rw [computeNew_m, computeNew_v]
    exact mass_cancel _ _ _ _ hm0
  rw [Finset.sum_congr rfl key, Finset.sum_add_distrib, ← Finset.mul_sum,
    total_netForce_fst, mul_zero, add_zero]
  exact (sum_map_eq_sum_getD s.bodies fun b => b.m * b.v.1).symm

lemma momentum_step_snd (s : System) (hm : ∀ b ∈ s.bodies, 0 < b.m) :
    (momentum s.step).2 = (momentum s).2 := by
  show ((s.step.bodies).map fun b => b.m * b.v.2).sum
      = ((s.bodies).map fun b => b.m * b.v.2).sum
  have hb : s.step.bodies = (List.range s.bodies.length).map (computeNew s.bodies) := rfl
  rw [hb, List.map_map, range_map_sum]
  have key : ∀ i ∈ Finset.range s.bodies.length,
      ((fun b => b.m * b.v.2) ∘ computeNew s.bodies) i
        = (s.bodies.getD i default).m * (s.bodies.getD i default).v.2
          + TIME_STEP * (netForce (s.bodies.getD i default) (othersAt s.bodies i)).2 := by
    intro i hi
    have hi' : i < s.bodies.length := Finset.mem_range.1 hi
    have hm0 : (s.bodies.getD i default).m ≠ 0 :=
      ne_of_gt (hm _ (getD_mem s.bodies i hi'))
    show (computeNew s.bodies i).m * (computeNew s.bodies i).v.2 = _
    rw [computeNew_m, computeNew_v]
    exact mass_cancel _ _ _ _ hm0
  rw [Finset.sum_congr rfl key, Finset.sum_add_distrib, ← Finset.mul_sum,
    total_netForce_snd, mul_zero, add_zero]
  exact (sum_map_eq_sum_getD s.bodies fun b => b.m * b.v.2).symm

lemma find_map_pair (f : ℕ → Body) (perm : List ℕ) :
    ∀ j ∈ perm,
      ((perm.map fun i => (i, f i)).find? fun p => p.1 == j) = some (j, f j) := by
  induction perm with
  | nil => intro j h; simp at h
  | cons i rest ih =>
      intro j hj
      by_cases hij : i = j
      · subst hij
        simp only [List.map_cons]
        rw [List.find?_cons_of_pos _ (by simp)]
      · simp only [List.map_cons]
        rw [List.find?_cons_of_neg _ (by simp [hij])]
        exact ih j ((List.mem_cons.1 hj).resolve_left fun h => hij h.symm)

lemma stepPerm_eq_step (s : System) (perm : List ℕ)
    (hp : perm.Perm (List.range s.bodies.length)) :
    s.stepPerm perm = s.step := by
  unfold System.stepPerm System.step
  congr 1
  refine List.map_congr_left fun j hj => ?_
  have hj' : j ∈ perm := hp.mem_iff.2 hj
  rw [find_map_pair (computeNew s.bodies) perm j hj']
  rfl

lemma sys12_bodies : sys12.bodies = [body1, body2] := rfl

lemma norm2_e11 : norm2 ((1e11:ℝ) - 0, (0:ℝ) - 0) = 1e11 := by
  rw [show (((1e11:ℝ) - 0, (0:ℝ) - 0) : ℝ × ℝ) = ((1e11:ℝ), 0) by norm_num, norm2_x,
    abs_of_pos (by norm_num : (0:ℝ) < 1e11)]

lemma sys12_step_v2 :
    ((sys12.step).bodies.getD 1 default).v = (-(G * 1e30 / (1e11:ℝ) ^ 2 * 60), 0) := by
  rw [step_bodies_getD sys12 1 (by rw [sys12_bodies]; simp), computeNew_v, sys12_bodies]
  simp only [List.getD_cons_succ, List.getD_cons_zero]
  show (body2.v.1 + TIME_STEP * (netForce body2 [body1]).1 / body2.m,
        body2.v.2 + TIME_STEP * (netForce body2 [body1]).2 / body2.m) = _
  unfold netForce forceTerm
  simp only [List.map_cons, List.map_nil, List.sum_cons, List.sum_nil]
  simp only [body1, body2]
  rw [norm2_e11]
  norm_num [G, TIME_STEP]

lemma sys12_step_x1 : ((sys12.step).bodies.getD 0 default).x = (0, 0) := by
  rw [step_bodies_getD sys12 0 (by rw [sys12_bodies]; simp), computeNew_x, sys12_bodies]
  simp only [List.getD_cons_zero]
  simp only [body1]
  norm_num [TIME_STEP]

lemma norm2_one : norm2 ((1:ℝ) - 0, (0:ℝ) - 0) = 1 := by
  rw [show (((1:ℝ) - 0, (0:ℝ) - 0) : ℝ × ℝ) = ((1:ℝ), 0) by norm_num, norm2_x]
  norm_num

lemma norm2_n59 : norm2 ((1:ℝ) - (0 + TIME_STEP * 1), (0:ℝ) - (0 + TIME_STEP * 0)) = 59 := by
  rw [show (((1:ℝ) - (0 + TIME_STEP * 1), (0:ℝ) - (0 + TIME_STEP * 0)) : ℝ × ℝ)
      = ((-59:ℝ), 0) by norm_num [TIME_STEP], norm2_x,
    abs_of_nonpos (by norm_num : (-59:ℝ) ≤ 0)]
  norm_num

lemma sysAB_step_v2 : ((sysAB.step).bodies.getD 1 default).v.1 = -(60 * G) := by
  rw [step_bodies_getD sysAB 1 (by simp [sysAB]), computeNew_v]
  show bodyB.v.1 + TIME_STEP * (netForce bodyB [bodyA]).1 / bodyB.m = _
  unfold netForce forceTerm
  simp only [List.map_cons, List.map_nil, List.sum_cons, List.sum_nil]
  simp only [bodyA, bodyB]
  rw [norm2_one]
  norm_num [G, TIME_STEP]

lemma sysAB_naive_v2 :
    ((sysAB.stepNaive).bodies.getD 1 default).v.1 = 60 * G / 3481 := by
  show (computeNew [computeNew [bodyA, bodyB] 0, bodyB] 1).v.1 = _
  rw [computeNew_v]
  show bodyB.v.1
      + TIME_STEP * (netForce bodyB [computeNew [bodyA, bodyB] 0]).1 / bodyB.m = _
  unfold netForce forceTerm
  simp only [List.map_cons, List.map_nil, List.sum_cons, List.sum_nil]
  rw [show (computeNew [bodyA, bodyB] 0).m = 1 by rw [computeNew_m]; rfl,
    show (computeNew [bodyA, bodyB] 0).x = (0 + TIME_STEP * 1, 0 + TIME_STEP * 0) by
      rw [computeNew_x]; rfl]
  simp only [bodyA, bodyB]
  rw [norm2_n59]
  norm_num [G, TIME_STEP]

lemma sysAB_naive_ne_step : sysAB.stepNaive ≠ sysAB.step := by
  intro h
  have h2 := congrArg (fun sys => ((sys.bodies.getD 1 default).v.1)) h
  simp only at h2
  rw [sysAB_naive_v2, sysAB_step_v2] at h2
  norm_num [G] at h2

lemma stepN_t (s : System) (n : ℕ) : (s.stepN n).t = s.t + n * TIME_STEP := by
  induction n with
  | zero => simp [System.stepN]
  | succ k ih =>
      show (s.stepN k).step.t = _
      rw [step_t, ih]
      push_cast
      ring

lemma sysAB_nonempty : sysAB.bodies ≠ [] := by simp [sysAB]

lemma sysAB_len : 0 < sysAB.bodies.length := by simp [sysAB]

lemma sysAB_masses : ∀ b ∈ sysAB.bodies, 0 < b.m := by
  intro b hb
  simp only [sysAB, List.mem_cons, List.not_mem_nil, or_false] at hb
  rcases hb with h | h <;> subst h <;> norm_num [bodyA, bodyB]

lemma sysAB_pairwise : sysAB.bodies.Pairwise fun a b => a.x ≠ b.x := by
  refine List.Pairwise.cons ?_ (List.pairwise_singleton _ _)
  intro b hb
  rcases List.mem_singleton.1 hb with h
  subst h
  intro heq
  have h1 := congrArg Prod.fst heq
  norm_num [bodyA, bodyB] at h1

/-- C1: for every system with a non-empty body set, positive masses and
pairwise distinct positions, one call to `step` advances `t` by
`TIME_STEP` and sets each body's position to `x + dt * v` and velocity
to `v + dt * F / m`, where `F` is the vector sum of the pairwise
Newtonian attractions against the pre-step positions of all other
bodies (two-phase compute-then-commit). -/
theorem step_two_phase_euler (s : System)
    (hne : s.bodies ≠ [])
    (hm : ∀ b ∈ s.bodies, 0 < b.m)
    (hx : s.bodies.Pairwise fun a b => a.x ≠ b.x)
    (i : ℕ) (hi : i < s.bodies.length) :
    s.step.t = s.t + TIME_STEP ∧
    (s.step.bodies.getD i default).x
      = ((s.bodies.getD i default).x.1 + TIME_STEP * (s.bodies.getD i default).v.1,
         (s.bodies.getD i default).x.2 + TIME_STEP * (s.bodies.getD i default).v.2) ∧
    (s.step.bodies.getD i default).v
      = ((s.bodies.getD i default).v.1
           + TIME_STEP * (netForce (s.bodies.getD i default) (othersAt s.bodies i)).1
             / (s.bodies.getD i default).m,
         (s.bodies.getD i default).v.2
           + TIME_STEP * (netForce (s.bodies.getD i default) (othersAt s.bodies i)).2
             / (s.bodies.getD i default).m) :=
  ⟨step_t s,
   by rw [step_bodies_getD s i hi, computeNew_x],
   by rw [step_bodies_getD s i hi, computeNew_v]⟩

/-- Witness for C1: the two-body system `sysAB` satisfies the
hypotheses, and the step equations hold there at position 0. -/
theorem step_two_phase_euler_witness :
    sysAB.bodies ≠ [] ∧ (∀ b ∈ sysAB.bodies, 0 < b.m) ∧
    (sysAB.bodies.Pairwise fun a b => a.x ≠ b.x) ∧ 0 < sysAB.bodies.length ∧
    (sysAB.step.t = sysAB.t + TIME_STEP ∧
     (sysAB.step.bodies.getD 0 default).x
       = ((sysAB.bodies.getD 0 default).x.1
            + TIME_STEP * (sysAB.bodies.getD 0 default).v.1,
          (sysAB.bodies.getD 0 default).x.2
            + TIME_STEP * (sysAB.bodies.getD 0 default).v.2) ∧
     (sysAB.step.bodies.getD 0 default).v
       = ((sysAB.bodies.getD 0 default).v.1
            + TIME_STEP * (netForce (sysAB.bodies.getD 0 default) (othersAt sysAB.bodies 0)).1
              / (sysAB.bodies.getD 0 default).m,
          (sysAB.bodies.getD 0 default).v.2
            + TIME_STEP * (netForce (sysAB.bodies.getD 0 default) (othersAt sysAB.bodies 0)).2
              / (sysAB.bodies.getD 0 default).m)) :=
  ⟨sysAB_nonempty, sysAB_masses, sysAB_pairwise, sysAB_len,
   step_two_phase_euler sysAB sysAB_nonempty sysAB_masses sysAB_pairwise 0 sysAB_len⟩

/-- C2: one `step` is the same for every iteration order of the compute
phase, and there is a system (with distinct positions and positive
masses) on which it differs from the naive in-place sequential update. -/
theorem step_order_independent_not_naive :
    (∀ (s : System) (perm : List ℕ),
       (s.bodies.Pairwise fun a b => a.x ≠ b.x) → (∀ b ∈ s.bodies, 0 < b.m) →
       perm.Perm (List.range s.bodies.length) → s.stepPerm perm = s.step) ∧
    ∃ s : System,
      (s.bodies.Pairwise fun a b => a.x ≠ b.x) ∧ (∀ b ∈ s.bodies, 0 < b.m) ∧
      s.stepNaive ≠ s.step :=
  ⟨fun s perm _ _ hp => stepPerm_eq_step s perm hp,
   ⟨sysAB, sysAB_pairwise, sysAB_masses, sysAB_naive_ne_step⟩⟩

/-- Witness for C2: on the concrete system `sysAB`, the reversed
iteration order `[1, 0]` produces exactly the state of `step`. -/
theorem step_order_independent_not_naive_witness :
    sysAB.stepPerm [1, 0] = sysAB.step :=
  step_order_independent_not_naive.1 sysAB [1, 0] sysAB_pairwise sysAB_masses (by decide)

/-- C3: for two bodies at distinct positions and no other bodies
present, the force of one on the other is the negation of the force of
the other on the one (Newton's third law). -/
theorem force_newton_third_law (A B : Body) (h : A.x ≠ B.x) :
    A.force [B] = NVal.neg (B.force [A]) := by
  rw [Body.force_cons, Body.force_cons]
  show NVal.vec _ = NVal.neg (NVal.vec _)
  unfold NVal.neg
  congr 1
  unfold netForce
  simp only [List.map_cons, List.map_nil, List.sum_cons, List.sum_nil, add_zero]
  rw [forceTerm_antisymm A B]

/-- Witness for C3: Newton's third law at the concrete pair
`bodyA`, `bodyB`. -/
theorem force_newton_third_law_witness :
    bodyA.x ≠ bodyB.x ∧ bodyA.force [bodyB] = NVal.neg (bodyB.force [bodyA]) :=
  have hne : bodyA.x ≠ bodyB.x := fun heq => by
    have h1 := congrArg Prod.fst heq
    norm_num [bodyA, bodyB] at h1
  ⟨hne, force_newton_third_law bodyA bodyB hne⟩

/-- C4: a call to `step` leaves the total momentum (the sum over all
bodies of `m * v`) exactly unchanged, for every system with a non-empty
body set, positive masses and pairwise distinct positions. -/
theorem step_conserves_momentum (s : System)
    (hne : s.bodies ≠ [])
    (hm : ∀ b ∈ s.bodies, 0 < b.m)
    (hx : s.bodies.Pairwise fun a b => a.x ≠ b.x) :
    momentum s.step = momentum s :=
  Prod.ext_iff.2 ⟨momentum_step_fst s hm, momentum_step_snd s hm⟩

/-- Witness for C4: momentum conservation at the concrete system
`sysAB`. -/
theorem step_conserves_momentum_witness :
    sysAB.bodies ≠ [] ∧ (∀ b ∈ sysAB.bodies, 0 < b.m) ∧
    (sysAB.bodies.Pairwise fun a b => a.x ≠ b.x) ∧
    momentum sysAB.step = momentum sysAB :=
  ⟨sysAB_nonempty, sysAB_masses, sysAB_pairwise,
   step_conserves_momentum sysAB sysAB_nonempty sysAB_masses sysAB_pairwise⟩

/-- C5: after `n` calls of `step` on a freshly constructed system, the
elapsed time `t` is exactly `n * TIME_STEP`. -/
theorem stepN_time (bs : List Body) (n : ℕ) :
    ((System.init bs).stepN n).t = n * TIME_STEP := by
  rw [stepN_t]
  show (0:ℝ) + n * TIME_STEP = _
  ring

/-- C6 counterexample: on a concrete body, the force over an empty
other-set is Python's scalar `0` (the default start value of `sum`),
which is not the two-dimensional zero vector. -/
theorem force_empty_scalar_counterexample :
    bodyA.force [] = NVal.scalar 0 ∧ NVal.scalar 0 ≠ NVal.vec (0, 0) :=
  ⟨rfl, fun h => NVal.noConfusion h⟩

/-- C6 amended: for every body, the force over an empty other-set is
the scalar `0` (not a 2-D vector), and under broadcasting this scalar
acts as the zero vector in the velocity update that consumes it. -/
theorem force_empty_eq_scalar_zero :
    (∀ A : Body, A.force [] = NVal.scalar 0) ∧
    ∀ (w : ℝ × ℝ) (m : ℝ),
      NVal.addVec w ((NVal.smul TIME_STEP (NVal.scalar 0)).divr m) = w := by
  refine ⟨fun A => rfl, fun w m => ?_⟩
  simp [NVal.smul, NVal.divr, NVal.addVec]

/-- C7: in the spec's example scenario (masses 1e30 and 1e24, separated
by 1e11 m on the x-axis, both at rest), one step with `TIME_STEP = 60`
gives body 2 a velocity pointing toward body 1 of magnitude
`G * 1e30 / 1e11 ^ 2 * 60`, and leaves body 1's position unchanged. -/
theorem example_scenario_step :
    TIME_STEP = 60 ∧
    ((sys12.step).bodies.getD 1 default).v = (-(G * 1e30 / (1e11:ℝ) ^ 2 * 60), 0) ∧
    0 < G * 1e30 / (1e11:ℝ) ^ 2 * 60 ∧
    ((sys12.step).bodies.getD 0 default).x = body1.x :=
  ⟨rfl, sys12_step_v2, by norm_num [G], by rw [sys12_step_x1]; rfl⟩

/-- C8 counterexample: constructing a `Body` with mass `-1` (and a
`System` containing it) succeeds, yielding a body whose stored mass is
non-positive — nothing is rejected. -/
theorem body_init_negative_mass_counterexample :
    (Body.init ("x") ("c") (0, 0) (0, 0) 1 (-1)).m = -1 ∧
    ((-1:ℝ) ≤ 0) ∧
    (System.init [Body.init ("x") ("c") (0, 0) (0, 0) 1 (-1)]).bodies
      = [Body.init ("x") ("c") (0, 0) (0, 0) 1 (-1)] :=
  ⟨rfl, by norm_num, rfl⟩

/-- C8 amended: construction performs no mass validation — `Body` (and
`System`) construction always succeeds, storing the given mass
unchanged, including when it is zero or negative. -/
theorem body_init_stores_mass (name colour : String) (x v : ℝ × ℝ) (r m : ℝ) :
    (Body.init name colour x v r m).m = m := rfl

/-- C9 counterexample: `step` mutates more than `t` and each body's
`x` and `v` — on the concrete system `sysAB`, body 0 carries no
`x_new`/`v_new` attribute before the step and carries both after it,
so the claim's exclusivity is false. -/
theorem step_mutates_scratch_counterexample :
    (sysAB.bodies.getD 0 default).x_new = none ∧
    ((sysAB.step).bodies.getD 0 default).x_new ≠ none ∧
    (sysAB.bodies.getD 0 default).v_new = none ∧
    ((sysAB.step).bodies.getD 0 default).v_new ≠ none := by
  refine ⟨rfl, ?_, rfl, ?_⟩
  · rw [step_bodies_getD sysAB 0 sysAB_len, computeNew_xnew]
    exact fun h => Option.noConfusion h
  · rw [step_bodies_getD sysAB 0 sysAB_len, computeNew_vnew]
    exact fun h => Option.noConfusion h

/-- C9 amended: `step` returns no value; it advances `t` by
`TIME_STEP` and mutates each body's `x`, `v` and the scratch
attributes `x_new`/`v_new` it writes during the compute phase (left
equal to the committed position and velocity), and nothing else: every
body's name, colour, radius and mass are unchanged and the number of
bodies is unchanged. -/
theorem step_frame_scratch (s : System) (i : ℕ) (hi : i < s.bodies.length) :
    s.step.t = s.t + TIME_STEP ∧
    s.step.bodies.length = s.bodies.length ∧
    (s.step.bodies.getD i default).name = (s.bodies.getD i default).name ∧
    (s.step.bodies.getD i default).colour = (s.bodies.getD i default).colour ∧
    (s.step.bodies.getD i default).r = (s.bodies.getD i default).r ∧
    (s.step.bodies.getD i default).m = (s.bodies.getD i default).m ∧
    (s.step.bodies.getD i default).x_new = some ((s.step.bodies.getD i default).x) ∧
    (s.step.bodies.getD i default).v_new = some ((s.step.bodies.getD i default).v) :=
  ⟨step_t s, step_bodies_length s,
   by rw [step_bodies_getD s i hi, computeNew_name],
   by rw [step_bodies_getD s i hi, computeNew_colour],
   by rw [step_bodies_getD s i hi, computeNew_r],
   by rw [step_bodies_getD s i hi, computeNew_m],
   by rw [step_bodies_getD s i hi, computeNew_xnew],
   by rw [step_bodies_getD s i hi, computeNew_vnew]⟩

/-- Witness for C9 (amended): the frame condition with the scratch
writes at the concrete system `sysAB`, position 0. -/
theorem step_frame_scratch_witness :
    0 < sysAB.bodies.length ∧
    (sysAB.step.t = sysAB.t + TIME_STEP ∧
     sysAB.step.bodies.length = sysAB.bodies.length ∧
     (sysAB.step.bodies.getD 0 default).name = (sysAB.bodies.getD 0 default).name ∧
     (sysAB.step.bodies.getD 0 default).colour = (sysAB.bodies.getD 0 default).colour ∧
     (sysAB.step.bodies.getD 0 default).r = (sysAB.bodies.getD 0 default).r ∧
     (sysAB.step.bodies.getD 0 default).m = (sysAB.bodies.getD 0 default).m ∧
     (sysAB.step.bodies.getD 0 default).x_new
       = some ((sysAB.step.bodies.getD 0 default).x) ∧
     (sysAB.step.bodies.getD 0 default).v_new
       = some ((sysAB.step.bodies.getD 0 default).v)) :=
  ⟨sysAB_len, step_frame_scratch sysAB 0 sysAB_len⟩

/-- C10: passing two bodies with the same name to the constructor
succeeds, the later body silently replacing the earlier one, so the
system holds fewer bodies than were supplied. -/
theorem init_duplicate_name_replaces (a b : Body) (h : a.name = b.name) :
    (System.init [a, b]).bodies = [b] ∧ (System.init [a, b]).bodies.length = 1 := by
  have hb : (System.init [a, b]).bodies = [b] := by
    show mkBodies [a, b] = [b]
    unfold mkBodies
    simp [dictInsert, h]
  exact ⟨hb, by rw [hb]; rfl⟩

/-- Witness for C10: the duplicate-name replacement at the concrete
pair `bodyA`, `bodyA2`, which share the name of `bodyA`. -/
theorem init_duplicate_name_replaces_witness :
    bodyA.name = bodyA2.name ∧
    ((System.init [bodyA, bodyA2]).bodies = [bodyA2] ∧
     (System.init [bodyA, bodyA2]).bodies.length = 1) :=
  ⟨rfl, init_duplicate_name_replaces bodyA bodyA2 rfl⟩

end

end SolarSym
